import Mathlib

/-!
Shallow embedding of the `github-tools` repository (three Python command-line
scripts: `list_repo_changes.py`, `list_ignored_files.py`,
`list_sibling_repos.py`) and proofs about the claims of its specification.

Modelling conventions:
* Python strings are `List Char` (`PyStr`); the Python text helpers used by
  the scripts (`strip`, `split`, `splitlines`, `rstrip`, `lower`, `int`, ...)
  are re-implemented character by character below, restricted to ASCII where
  Python is Unicode-aware.
* Each external `git` invocation is a query to an environment
  `Env : Entry → GitQuery → CmdResult`; `subprocess.run` never raises
  (`check=False`), so a query is total and yields exit code, stdout, stderr.
* A filesystem child is an `Entry` (its final path segment plus an `isDir`
  bit); a `Parent` is the resolved `--parent` argument. Paths appearing in
  diagnostics are modelled by the entry's final path segment.
* `print`/`sys.stderr.write` append one item to the stdout / stderr line
  list; `print()` appends an empty line. Each run also records the trace of
  git queries it issued, in order.
-/

namespace GitTools

abbrev PyStr := List Char

/-- Whitespace characters recognised by Python `str.strip()` / `str.split()`
(ASCII fragment). -/
def isPyWs (c : Char) : Bool :=
  c = ' ' || c = '\t' || c = '\n' || c = '\r' || c = '\x0b' || c = '\x0c'

/-- Python `str.lstrip()` (ASCII whitespace). -/
def pyLstripWs (s : PyStr) : PyStr := s.dropWhile isPyWs

/-- Python `str.rstrip()` (ASCII whitespace). -/
def pyRstripWs (s : PyStr) : PyStr := (s.reverse.dropWhile isPyWs).reverse

/-- Python `str.strip()` (ASCII whitespace). -/
def pyStrip (s : PyStr) : PyStr := pyRstripWs (pyLstripWs s)

/-- Python `str.lstrip(chars)`: drop leading characters that belong to the
given set. -/
def pyLstripSet (set : List Char) (s : PyStr) : PyStr :=
  s.dropWhile (fun c => set.contains c)

/-- Python `str.rstrip(chars)`: drop trailing characters that belong to the
given set. -/
def pyRstripSet (set : List Char) (s : PyStr) : PyStr :=
  (s.reverse.dropWhile (fun c => set.contains c)).reverse

/-- Python `str.strip(chars)`: drop the given characters from both ends. -/
def pyStripSet (set : List Char) (s : PyStr) : PyStr :=
  pyRstripSet set (pyLstripSet set s)

/-- Accumulator-passing worker for `pySplitWs`. -/
def splitWsAux : PyStr → PyStr → List PyStr
  | [], acc => if acc = [] then [] else [acc.reverse]
  | c :: rest, acc =>
    if isPyWs c then
      if acc = [] then splitWsAux rest [] else acc.reverse :: splitWsAux rest []
    else splitWsAux rest (c :: acc)

/-- Python `str.split()` with no argument: split on runs of whitespace,
producing no empty tokens. -/
def pySplitWs (s : PyStr) : List PyStr := splitWsAux s []

/-- Line-break characters recognised by Python `str.splitlines()`
(`\r\n` is handled separately in the worker; U+0085, U+2028 and U+2029 are
included for fidelity). -/
def isPyLineBreak (c : Char) : Bool :=
  c = '\n' || c = '\r' || c = '\x0b' || c = '\x0c' ||
  c = '\x1c' || c = '\x1d' || c = '\x1e' || c = '\x85' ||
  c = Char.ofNat 0x2028 || c = Char.ofNat 0x2029

/-- Accumulator-passing worker for `pySplitlines`; the flag records that the
previous character was a carriage return, so a following `\n` is part of the
same `\r\n` break. -/
def splitlinesAux : PyStr → PyStr → Bool → List PyStr
  | [], acc, _ => if acc = [] then [] else [acc.reverse]
  | c :: rest, acc, afterCR =>
    if afterCR && c = '\n' then splitlinesAux rest acc false
    else if isPyLineBreak c then acc.reverse :: splitlinesAux rest [] (c = '\r')
    else splitlinesAux rest (c :: acc) false

/-- Python `str.splitlines()`. -/
def pySplitlines (s : PyStr) : List PyStr := splitlinesAux s [] false

/-- Python `str.lower()` (ASCII fragment, via `Char.toLower`). -/
def pyLower (s : PyStr) : PyStr := s.map Char.toLower

/-- Python string comparison `a <= b`: lexicographic by code point. -/
def pyStrLe : PyStr → PyStr → Bool
  | [], _ => true
  | _ :: _, [] => false
  | a :: as, b :: bs => if a = b then pyStrLe as bs else decide (a < b)

/-- Does `s` start with `pat`, character for character? -/
def isPre : PyStr → PyStr → Bool
  | [], _ => true
  | _ :: _, [] => false
  | a :: as, b :: bs => decide (a = b) && isPre as bs

/-- Python `pat in s` for strings: does `pat` occur as a contiguous
substring of `s`? -/
def hasSub (pat : PyStr) : PyStr → Bool
  | [] => decide (pat = [])
  | c :: rest => isPre pat (c :: rest) || hasSub pat rest

/-- Python `c in s` for a single character. -/
def hasChar (c : Char) (s : PyStr) : Bool := s.contains c

/-- Python `s.endswith(suffix)`. -/
def pyEndsWith (suffix s : PyStr) : Bool := isPre suffix.reverse s.reverse

/-- The `/`-delimited final segment of a string: Python
`s.rsplit("/", 1)[-1]`. -/
def lastSlashSeg : PyStr → PyStr
  | [] => []
  | '/' :: rest => lastSlashSeg rest
  | c :: rest => if hasChar '/' rest then lastSlashSeg rest else c :: rest

/-- Decimal digits of a natural number, most significant first, with a fuel
argument so the recursion is structural. -/
def natDigitsAux : Nat → Nat → PyStr
  | 0, _ => []
  | f + 1, n =>
    if n < 10 then [Char.ofNat (48 + n)]
    else natDigitsAux f (n / 10) ++ [Char.ofNat (48 + n % 10)]

/-- Decimal rendering of a natural number (no sign, no leading zeros). -/
def natDigits (n : Nat) : PyStr := natDigitsAux (n + 1) n

/-- Python `str(i)` for an integer. -/
def intStr : Int → PyStr
  | .ofNat n => natDigits n
  | .negSucc n => '-' :: natDigits (n + 1)

/-- Worker validating the tail of a Python integer literal body: digits with
single underscores allowed only between digits. -/
def pyBodyRest : PyStr → Bool
  | [] => true
  | '_' :: [] => false
  | '_' :: d :: rest => d.isDigit && pyBodyRest rest
  | c :: rest => c.isDigit && pyBodyRest rest

/-- Is `s` a valid (unsigned) Python integer literal body — nonempty digits
with underscores only between digits? -/
def pyBodyOk : PyStr → Bool
  | [] => false
  | c :: rest => c.isDigit && pyBodyRest rest

/-- Numeric value of a digit string (underscores already removed). -/
def digitsToNat (cs : PyStr) : Nat :=
  cs.foldl (fun n c => 10 * n + (c.toNat - 48)) 0

/-- Python `int(s)`: strip whitespace, optional sign, digits with
underscores between digits; `none` models `ValueError` (ASCII fragment). -/
def pyInt (s : PyStr) : Option Int :=
  let t := pyStrip s
  match t with
  | '+' :: rest =>
    if pyBodyOk rest then some (Int.ofNat (digitsToNat (rest.filter (fun c => c ≠ '_')))) else none
  | '-' :: rest =>
    if pyBodyOk rest then some (-(Int.ofNat (digitsToNat (rest.filter (fun c => c ≠ '_'))))) else none
  | _ =>
    if pyBodyOk t then some (Int.ofNat (digitsToNat (t.filter (fun c => c ≠ '_')))) else none

/-- Insert `a` into a sorted list, placing it before the first element that
is not strictly smaller; used to model Python's stable `sorted`. -/
def insertStable (le : α → α → Bool) (a : α) : List α → List α
  | [] => [a]
  | b :: bs =>
    if le b a && !le a b then b :: insertStable le a bs else a :: b :: bs

/-- Stable sort with respect to a boolean preorder `le`; agrees with Python
`sorted` (which is stable) whenever `le` is total and transitive. -/
def stableSort (le : α → α → Bool) : List α → List α
  | [] => []
  | a :: as => insertStable le a (stableSort le as)

/-- Result of one external `git` invocation: `subprocess.run(...)` with
`capture_output=True, text=True, check=False`. -/
structure CmdResult where
  exitCode : Int
  stdout : PyStr
  stderr : PyStr
deriving DecidableEq

/-- The git queries the three scripts issue against a directory. -/
inductive GitQuery where
  | isInsideWorkTree
  | statusPorcelain
  | upstreamRef
  | revListCount (upstream : PyStr)
  | lsFilesIgnored
  | remoteV
deriving DecidableEq

/-- An immediate child of the scanned parent directory: its final path
segment and whether it is a directory. -/
structure Entry where
  name : PyStr
  isDir : Bool
deriving DecidableEq

/-- The resolved `--parent` argument: its rendered path and whether it is a
directory. -/
structure Parent where
  path : PyStr
  isDir : Bool
  entries : List Entry

/-- The external world: what each git query returns for each entry. -/
abbrev Env := Entry → GitQuery → CmdResult

/-- The stdout lines, stderr items and git-query trace produced by a
fragment of a run. -/
structure Emit where
  out : List PyStr
  err : List PyStr
  trace : List (Entry × GitQuery)
deriving DecidableEq

/-- A whole program run: exit status plus everything emitted. -/
structure RunResult where
  exitCode : Nat
  out : List PyStr
  err : List PyStr
  trace : List (Entry × GitQuery)
deriving DecidableEq

/-- `is_git_repo` (identical in all three scripts): exit code 0 and trimmed
stdout equal to the literal `true`. -/
def is_git_repo (res : CmdResult) : Bool :=
  decide (res.exitCode = 0) && decide (pyStrip res.stdout = "true".toList)

/-- Does the entry test positive as a git work tree in this environment? -/
def isRepoE (env : Env) (e : Entry) : Bool :=
  is_git_repo (env e .isInsideWorkTree)

/-- The comparison induced by the sort key `p.name.lower()` of all three
scripts. -/
def entryLe (a b : Entry) : Bool :=
  pyStrLe (pyLower a.name) (pyLower b.name)

/-- The sort applied to `parent.iterdir()` in all three scripts:
`sorted(..., key=lambda p: p.name.lower())`. -/
def sortedEntries (p : Parent) : List Entry :=
  stableSort entryLe p.entries

/-- The repositories a scan processes: directory entries passing the
work-tree check, in sorted order. -/
def scanRepos (env : Env) (p : Parent) : List Entry :=
  (sortedEntries p).filter (fun e => e.isDir && isRepoE env e)

/-- Diagnostic text of `list_repo_changes.list_changes` on failure:
`git status failed in {path}: {stderr}`. -/
def changesDiag (path stderrText : PyStr) : PyStr :=
  "git status failed in ".toList ++ path ++ ": ".toList ++ stderrText

/-- `list_repo_changes.list_changes`: porcelain status lines (blank lines
dropped, trailing whitespace trimmed) plus the stderr items written. -/
def list_changes (path : PyStr) (res : CmdResult) : List PyStr × List PyStr :=
  if res.exitCode ≠ 0 then ([], [changesDiag path res.stderr])
  else
    (((pySplitlines res.stdout).filter (fun l => pyStrip l ≠ [])).map pyRstripWs, [])

/-- `list_repo_changes.get_upstream`: upstream ref, or `none` when the query
fails or its trimmed stdout is empty. -/
def get_upstream (res : CmdResult) : Option PyStr :=
  if res.exitCode ≠ 0 then none
  else
    let ref := pyStrip res.stdout
    if ref ≠ [] then some ref else none

/-- `list_repo_changes.ahead_behind`: the two whitespace-separated counts of
`git rev-list --left-right --count`, or `none` on failure / parse error. -/
def ahead_behind (res : CmdResult) : Option (Int × Int) :=
  if res.exitCode ≠ 0 then none
  else
    match pySplitWs (pyStrip res.stdout) with
    | [p0, p1] =>
      match pyInt p0, pyInt p1 with
      | some a, some b => some (a, b)
      | _, _ => none
    | _ => none

/-- The line printed when no upstream is configured (the source's literal
Japanese text). -/
def noUpstreamLine : PyStr := "  upstream: (なし)".toList

/-- The `upstream: <ref> (ahead <a>, behind <b>)` line. -/
def upstreamCountsLine (up : PyStr) (a b : Int) : PyStr :=
  "  upstream: ".toList ++ up ++ " (ahead ".toList ++ intStr a ++
    ", behind ".toList ++ intStr b ++ ")".toList

/-- The line printed when the divergence query fails (the source's literal
Japanese text). -/
def upstreamUnavailableLine (up : PyStr) : PyStr :=
  "  upstream: ".toList ++ up ++ " (差分を取得できませんでした)".toList

/-- Lines 95–104 of `list_repo_changes.main`: the upstream status line for a
repo, plus the queries issued to compute it. A `some []` upstream is handled
like `none`, mirroring Python's `if upstream:` truthiness (unreachable, as
`get_upstream` never returns an empty ref). -/
def upstreamBlock (env : Env) (e : Entry) : PyStr × List (Entry × GitQuery) :=
  match get_upstream (env e .upstreamRef) with
  | none => (noUpstreamLine, [(e, .upstreamRef)])
  | some [] => (noUpstreamLine, [(e, .upstreamRef)])
  | some (c :: cs) =>
    match ahead_behind (env e (.revListCount (c :: cs))) with
    | some (a, b) =>
      (upstreamCountsLine (c :: cs) a b, [(e, .upstreamRef), (e, .revListCount (c :: cs))])
    | none =>
      (upstreamUnavailableLine (c :: cs), [(e, .upstreamRef), (e, .revListCount (c :: cs))])

/-- The loop body of `list_repo_changes.main` for one child entry. -/
def changesStep (env : Env) (e : Entry) : Emit :=
  if e.isDir = false then ⟨[], [], []⟩
  else if isRepoE env e = false then ⟨[], [], [(e, .isInsideWorkTree)]⟩
  else
    let ch := list_changes e.name (env e .statusPorcelain)
    let ub := upstreamBlock env e
    { out := [e.name] ++ [ub.1] ++
        (if ch.1 ≠ [] then ch.1.map (fun l => "  - ".toList ++ l)
         else ["  (clean)".toList]) ++ [[]]
      err := ch.2
      trace := [(e, .isInsideWorkTree), (e, .statusPorcelain)] ++ ub.2 }

/-- Diagnostic of all three `main`s when the resolved parent is not a
directory: `Parent path is not a directory: {parent}\n`. -/
def parentDiag (path : PyStr) : PyStr :=
  "Parent path is not a directory: ".toList ++ path ++ "\n".toList

/-- `list_repo_changes.main`. -/
def changesMain (env : Env) (p : Parent) : RunResult :=
  if p.isDir = false then ⟨1, [], [parentDiag p.path], []⟩
  else
    let parts := (sortedEntries p).map (changesStep env)
    ⟨0, (parts.map Emit.out).flatten, (parts.map Emit.err).flatten,
      (parts.map Emit.trace).flatten⟩

/-- Diagnostic text of `list_ignored_files.list_ignored` on failure:
`git ls-files failed in {path}: {stderr}`. -/
def ignoredDiag (path stderrText : PyStr) : PyStr :=
  "git ls-files failed in ".toList ++ path ++ ": ".toList ++ stderrText

/-- `list_ignored_files.list_ignored`: the ignored-file lines (blank lines
dropped, others kept verbatim) plus the stderr items written. -/
def list_ignored (path : PyStr) (res : CmdResult) : List PyStr × List PyStr :=
  if res.exitCode ≠ 0 then ([], [ignoredDiag path res.stderr])
  else ((pySplitlines res.stdout).filter (fun l => pyStrip l ≠ []), [])

/-- The loop body of `list_ignored_files.main` for one child entry. -/
def ignoredStep (env : Env) (e : Entry) : Emit :=
  if e.isDir = false then ⟨[], [], []⟩
  else if isRepoE env e = false then ⟨[], [], [(e, .isInsideWorkTree)]⟩
  else
    let ig := list_ignored e.name (env e .lsFilesIgnored)
    { out := [e.name] ++
        (if ig.1 ≠ [] then ig.1.map (fun l => "  - ".toList ++ l)
         else ["  (no ignored files)".toList]) ++ [[]]
      err := ig.2
      trace := [(e, .isInsideWorkTree), (e, .lsFilesIgnored)] }

/-- `list_ignored_files.main`. -/
def ignoredMain (env : Env) (p : Parent) : RunResult :=
  if p.isDir = false then ⟨1, [], [parentDiag p.path], []⟩
  else
    let parts := (sortedEntries p).map (ignoredStep env)
    ⟨0, (parts.map Emit.out).flatten, (parts.map Emit.err).flatten,
      (parts.map Emit.trace).flatten⟩

/-- Association-list lookup modelling Python dict access on the
insertion-ordered remote map. -/
def lookupStr (k : PyStr) : List (PyStr × PyStr) → Option PyStr
  | [] => none
  | (n, u) :: rest => if n = k then some u else lookupStr k rest

/-- The fold of `list_sibling_repos.fetch_remotes` over the output lines:
split each line on whitespace, need at least three tokens, keep the first
fetch-direction URL per remote name. -/
def fetchFoldAux (acc : List (PyStr × PyStr)) : List PyStr → List (PyStr × PyStr)
  | [] => acc
  | line :: rest =>
    match pySplitWs line with
    | p0 :: p1 :: p2 :: _ =>
      if pyStripSet "()".toList p2 = "fetch".toList ∧ lookupStr p0 acc = none then
        fetchFoldAux (acc ++ [(p0, p1)]) rest
      else fetchFoldAux acc rest
    | _ => fetchFoldAux acc rest

/-- `list_sibling_repos.fetch_remotes`: the insertion-ordered remote → fetch
URL map, empty when the `remote -v` query fails (no diagnostic is written in
that case). -/
def fetch_remotes (res : CmdResult) : List (PyStr × PyStr) :=
  if res.exitCode ≠ 0 then []
  else fetchFoldAux [] (pySplitlines res.stdout)

/-- Specification-language counterpart for the remote map (claim C7): the
`(name, url)` pairs of lines whose third token strips to `fetch`. -/
def fetchCands : List PyStr → List (PyStr × PyStr)
  | [] => []
  | line :: rest =>
    match pySplitWs line with
    | p0 :: p1 :: p2 :: _ =>
      if pyStripSet "()".toList p2 = "fetch".toList then (p0, p1) :: fetchCands rest
      else fetchCands rest
    | _ => fetchCands rest

/-- Specification-language counterpart for the remote map (claim C7): keep
the first pair per name, in first-seen order, skipping names already seen. -/
def dedupSeen (seen : List PyStr) : List (PyStr × PyStr) → List (PyStr × PyStr)
  | [] => []
  | (n, u) :: rest =>
    if n ∈ seen then dedupSeen seen rest
    else (n, u) :: dedupSeen (n :: seen) rest

/-- Characters removed from URLs by CPython's `urlsplit` before parsing. -/
def removeUnsafe (s : PyStr) : PyStr :=
  s.filter (fun c => c ≠ '\t' && c ≠ '\r' && c ≠ '\n')

/-- Characters allowed after the first letter of a URL scheme. -/
def schemeChar (c : Char) : Bool :=
  c.isAlpha || c.isDigit || c = '+' || c = '-' || c = '.'

/-- CPython `urlsplit` scheme detection: returns the lowercased scheme and
the rest, or an empty scheme and the unchanged input. -/
def splitScheme (s : PyStr) : PyStr × PyStr :=
  match s.dropWhile (fun c => c ≠ ':') with
  | [] => ([], s)
  | _ :: rest =>
    match s.takeWhile (fun c => c ≠ ':') with
    | [] => ([], s)
    | c :: cs =>
      if c.isAlpha && cs.all schemeChar then (pyLower (c :: cs), rest) else ([], s)

/-- CPython `urlsplit` netloc removal: after `//`, drop up to the next
`/`, `?` or `#` (the delimiter is kept in the remainder). -/
def stripNetloc : PyStr → PyStr
  | '/' :: '/' :: rest =>
    rest.dropWhile (fun c => c ≠ '/' && c ≠ '?' && c ≠ '#')
  | s => s

/-- Schemes for which CPython's `urlparse` splits `;params` off the path. -/
def usesParams : List PyStr :=
  [[], "ftp".toList, "hdl".toList, "prl".toList, "rtsp".toList,
   "rtspu".toList, "sip".toList, "sips".toList, "mms".toList,
   "sftp".toList, "tel".toList]

/-- CPython `_splitparams` applied to a path: cut at the first `;` at or
after the last `/` (or the first `;` when there is no `/`). -/
def splitParamsPath (p : PyStr) : PyStr :=
  if hasChar '/' p then
    let seg := lastSlashSeg p
    if hasChar ';' seg then
      p.take (p.length - seg.length) ++ seg.takeWhile (fun c => c ≠ ';')
    else p
  else p.takeWhile (fun c => c ≠ ';')

/-- The `path` attribute of CPython `urllib.parse.urlparse`: remove unsafe
characters, strip scheme and netloc, cut query and fragment, and split
params for the schemes that use them. -/
def urlparsePath (url : PyStr) : PyStr :=
  let cleaned := removeUnsafe url
  let sr := splitScheme cleaned
  let afterNet := stripNetloc sr.2
  let path := (afterNet.takeWhile (fun c => c ≠ '#')).takeWhile (fun c => c ≠ '?')
  if sr.1 ∈ usesParams ∧ hasChar ';' path then splitParamsPath path else path

/-- The final step of `repo_name_from_url`: strip one trailing `.git`. -/
def stripGitSuffix (repo : PyStr) : PyStr :=
  if pyEndsWith ".git".toList repo then repo.take (repo.length - 4) else repo

/-- `list_sibling_repos.repo_name_from_url`: infer the default clone
directory name from a remote URL. -/
def repo_name_from_url (url : PyStr) : PyStr :=
  let trimmed := pyRstripSet ['/'] url
  let path_part :=
    if hasSub "://".toList trimmed then
      pyLstripSet ['/'] (urlparsePath trimmed)
    else
      if hasChar ':' trimmed then
        match trimmed.dropWhile (fun c => c ≠ ':') with
        | [] => []
        | _ :: rest => rest
      else trimmed
  stripGitSuffix (lastSlashSeg path_part)

/-- Specification-language counterpart of `repo_name_from_url` (claim C6),
following the claim's words: strip trailing slashes; on `://` take the last
`/`-delimited segment of the parsed URL's path, otherwise the substring
after the first colon (if any, else the whole trimmed string) and then its
last `/`-delimited segment; finally strip one trailing `.git`. -/
def repoNameSpec (url : PyStr) : PyStr :=
  let trimmed := pyRstripSet ['/'] url
  let repo :=
    if hasSub "://".toList trimmed then lastSlashSeg (urlparsePath trimmed)
    else
      if hasChar ':' trimmed then
        match trimmed.dropWhile (fun c => c ≠ ':') with
        | [] => []
        | _ :: rest => lastSlashSeg rest
      else lastSlashSeg trimmed
  stripGitSuffix repo

/-- `list_sibling_repos.primary_remote`: `origin` when present, otherwise
the alphabetically first remote name; `none` when there are no remotes.
The two `none` fallbacks after the sort are unreachable for nonempty maps. -/
def primary_remote (remotes : List (PyStr × PyStr)) : Option (PyStr × PyStr) :=
  if remotes = [] then none
  else
    match lookupStr "origin".toList remotes with
    | some u => some ("origin".toList, u)
    | none =>
      match stableSort pyStrLe (remotes.map Prod.fst) with
      | [] => none
      | k :: _ =>
        match lookupStr k remotes with
        | some u => some (k, u)
        | none => none

/-- The warning text of `list_sibling_repos.list_sibling_repos`:
`WARNING: folder '<f>' differs from default clone dir '<e>' (remote: <r>)`. -/
def warnText (folder expected pri : PyStr) : PyStr :=
  "WARNING: folder '".toList ++ folder ++ "' differs from default clone dir '".toList
    ++ expected ++ "' (remote: ".toList ++ pri ++ ")".toList

/-- Lines 102–110 of `list_sibling_repos.list_sibling_repos`: the mismatch
warnings written to stderr for one repo, given its remote map. The
`pri_name and pri_url` truthiness test of the source is modelled by the
nonemptiness tests. -/
def mismatchWarn (folder : PyStr) (remotes : List (PyStr × PyStr)) : List PyStr :=
  match primary_remote remotes with
  | none => []
  | some (n, u) =>
    if n ≠ [] ∧ u ≠ [] then
      let expected := repo_name_from_url u
      if expected ≠ [] ∧ folder ≠ expected then [warnText folder expected n] else []
    else []

/-- The display order of remotes: `origin` first, then ascending names
(Python tuple key `(0 if name == "origin" else 1, name)`). -/
def sortRemotesDisplay (remotes : List (PyStr × PyStr)) : List (PyStr × PyStr) :=
  stableSort
    (fun a b =>
      let ka : Nat := if a.1 = "origin".toList then 0 else 1
      let kb : Nat := if b.1 = "origin".toList then 0 else 1
      if ka < kb then true else if ka = kb then pyStrLe a.1 b.1 else false)
    remotes

/-- The per-repo body of `list_sibling_repos.list_sibling_repos`: the
stdout block, the mismatch warnings on stderr, and the `remote -v` query. -/
def siblingStep (env : Env) (e : Entry) : Emit :=
  let remotes := fetch_remotes (env e .remoteV)
  let remoteLines :=
    (sortRemotesDisplay remotes).map
      (fun nu => "  - ".toList ++ nu.1 ++ ": ".toList ++ nu.2)
  { out := [e.name] ++
      (if remoteLines ≠ [] then remoteLines else ["  (no remotes)".toList]) ++ [[]]
    err := mismatchWarn e.name remotes
    trace := [(e, .remoteV)] }

/-- `list_sibling_repos.list_sibling_repos`: the scan pass (one work-tree
check per directory entry, in sorted order) followed by the per-repo
blocks. -/
def siblingBody (env : Env) (p : Parent) : Emit :=
  let scanTrace :=
    (sortedEntries p).filterMap
      (fun e => if e.isDir then some (e, GitQuery.isInsideWorkTree) else none)
  let parts := (scanRepos env p).map (siblingStep env)
  { out := (parts.map Emit.out).flatten
    err := (parts.map Emit.err).flatten
    trace := scanTrace ++ (parts.map Emit.trace).flatten }

/-- `list_sibling_repos.main`. -/
def siblingMain (env : Env) (p : Parent) : RunResult :=
  if p.isDir = false then ⟨1, [], [parentDiag p.path], []⟩
  else
    let body := siblingBody env p
    ⟨0, body.out, body.err, body.trace⟩

/-- Specification-language primary-remote predicate (claim C8): `origin`
when present, otherwise a member whose name is `pyStrLe`-below every remote
name. -/
def primarySpec (remotes : List (PyStr × PyStr)) (n u : PyStr) : Prop :=
  (lookupStr "origin".toList remotes = some u ∧ n = "origin".toList) ∨
  (lookupStr "origin".toList remotes = none ∧ (n, u) ∈ remotes ∧
    ∀ k ∈ remotes.map Prod.fst, pyStrLe n k = true)

/-! ### Concrete environments and directories for closed checks -/

/-- A child directory used in concrete checks. -/
def entryR : Entry := ⟨"repo1".toList, true⟩

/-- An environment in which every directory is a git work tree and every
query succeeds with fixed plausible output. -/
def envAllRepo : Env := fun _ q =>
  match q with
  | .isInsideWorkTree => ⟨0, "true\n".toList, []⟩
  | .statusPorcelain => ⟨0, " M a.txt\n".toList, []⟩
  | .upstreamRef => ⟨0, "origin/main\n".toList, []⟩
  | .revListCount _ => ⟨0, "3 0\n".toList, []⟩
  | .lsFilesIgnored => ⟨0, "x.log\n".toList, []⟩
  | .remoteV =>
    ⟨0, ("origin\thttps://example.com/org/widget.git (fetch)\n" ++
         "origin\thttps://example.com/org/widget.git (push)\n").toList, []⟩

/-- An environment in which the upstream resolves but the ahead/behind
query fails. -/
def envDivergeFail : Env := fun _ q =>
  match q with
  | .isInsideWorkTree => ⟨0, "true\n".toList, []⟩
  | .statusPorcelain => ⟨0, [], []⟩
  | .upstreamRef => ⟨0, "origin/main\n".toList, []⟩
  | .revListCount _ => ⟨128, [], "fatal: bad revision\n".toList⟩
  | .lsFilesIgnored => ⟨0, [], []⟩
  | .remoteV => ⟨0, [], []⟩

/-- An environment in which the `remote -v` and `ls-files` queries fail. -/
def envQueryFail : Env := fun _ q =>
  match q with
  | .isInsideWorkTree => ⟨0, "true\n".toList, []⟩
  | .statusPorcelain => ⟨0, [], []⟩
  | .upstreamRef => ⟨128, [], []⟩
  | .revListCount _ => ⟨0, "0 0\n".toList, []⟩
  | .lsFilesIgnored => ⟨2, [], "boom\n".toList⟩
  | .remoteV => ⟨2, [], "boom\n".toList⟩

/-- An environment in which the upstream query succeeds but prints only
whitespace. -/
def envEmptyUpstream : Env := fun _ q =>
  match q with
  | .isInsideWorkTree => ⟨0, "true\n".toList, []⟩
  | .upstreamRef => ⟨0, "   \n".toList, []⟩
  | _ => ⟨0, [], []⟩

/-- A concrete `remote -v` result with a push line, a duplicate fetch line
and a second remote. -/
def remoteVOut : CmdResult :=
  ⟨0, ("origin\thttps://a/b.git (fetch)\n" ++
       "origin\thttps://a/b.git (push)\n" ++
       "origin\thttps://c/d.git (fetch)\n" ++
       "upstream\thttps://e/f.git (fetch)\n").toList, []⟩

/-- A parent directory with a case-insensitive name tie (`A` before `a` in
enumeration order) and a non-directory child. -/
def parentTie : Parent :=
  ⟨"/work".toList, true,
   [⟨"b".toList, true⟩, ⟨"A".toList, true⟩, ⟨"a".toList, true⟩,
    ⟨"file.txt".toList, false⟩]⟩

/-- A parent directory with a single repository child. -/
def parentOne : Parent := ⟨"/work".toList, true, [entryR]⟩

/-- A resolved `--parent` path that is not a directory. -/
def parentBad : Parent := ⟨"/no/such/dir".toList, false, [entryR]⟩

/-! ### Order-theoretic facts about `pyStrLe` and `stableSort` -/

theorem pyStrLe_refl (s : PyStr) : pyStrLe s s = true := by
  induction s with
  | nil => rfl
  | cons c cs ih => simp [pyStrLe, ih]

theorem pyStrLe_total (a b : PyStr) : pyStrLe a b = true ∨ pyStrLe b a = true := by
  induction a generalizing b with
  | nil => exact Or.inl rfl
  | cons x xs ih =>
    cases b with
    | nil => exact Or.inr rfl
    | cons y ys =>
      by_cases hxy : x = y
      · subst hxy
        simpa [pyStrLe] using ih ys
      · rcases lt_trichotomy x y with h | h | h
        · left; simp [pyStrLe, hxy, h]
        · exact absurd h hxy
        · right; simp [pyStrLe, Ne.symm hxy, h]

theorem pyStrLe_trans {a b c : PyStr} (hab : pyStrLe a b = true)
    (hbc : pyStrLe b c = true) : pyStrLe a c = true := by
  induction a generalizing b c with
  | nil => rfl
  | cons x xs ih =>
    cases b with
    | nil => simp [pyStrLe] at hab
    | cons y ys =>
      cases c with
      | nil => simp [pyStrLe] at hbc
      | cons z zs =>
        by_cases hxy : x = y <;> by_cases hyz : y = z
        · subst hxy; subst hyz
          simp only [pyStrLe, if_pos rfl] at hab hbc ⊢
          exact ih hab hbc
        · subst hxy
          simp only [pyStrLe, if_pos rfl] at hab
          simpa [pyStrLe, hyz] using hbc
        · subst hyz
          simp only [pyStrLe, if_pos rfl] at hbc
          simpa [pyStrLe, hxy] using hab
        · simp only [pyStrLe, if_neg hxy] at hab
          simp only [pyStrLe, if_neg hyz] at hbc
          have hxz : x < z := lt_trans (of_decide_eq_true hab) (of_decide_eq_true hbc)
          have : x ≠ z := ne_of_lt hxz
          simp [pyStrLe, this, hxz]

theorem pyStrLe_antisymm {a b : PyStr} (hab : pyStrLe a b = true)
    (hba : pyStrLe b a = true) : a = b := by
  induction a generalizing b with
  | nil =>
    cases b with
    | nil => rfl
    | cons y ys => simp [pyStrLe] at hba
  | cons x xs ih =>
    cases b with
    | nil => simp [pyStrLe] at hab
    | cons y ys =>
      by_cases hxy : x = y
      · subst hxy
        simp only [pyStrLe, if_pos rfl] at hab hba
        exact congrArg (x :: ·) (ih hab hba)
      · simp only [pyStrLe, if_neg hxy] at hab
        simp only [pyStrLe, if_neg (Ne.symm hxy)] at hba
        exact absurd (lt_trans (of_decide_eq_true hab) (of_decide_eq_true hba))
          (lt_irrefl x)

theorem entryLe_total (a b : Entry) : entryLe a b = true ∨ entryLe b a = true :=
  pyStrLe_total _ _

theorem entryLe_trans {a b c : Entry} (hab : entryLe a b = true)
    (hbc : entryLe b c = true) : entryLe a c = true :=
  pyStrLe_trans hab hbc

theorem insertStable_perm (le : α → α → Bool) (a : α) (l : List α) :
    (insertStable le a l).Perm (a :: l) := by
  induction l with
  | nil => exact List.Perm.refl _
  | cons b bs ih =>
    simp only [insertStable]
    split
    · exact (ih.cons b).trans (List.Perm.swap a b bs)
    · exact List.Perm.refl _

theorem stableSort_perm (le : α → α → Bool) (l : List α) :
    (stableSort le l).Perm l := by
  induction l with
  | nil => exact List.Perm.refl _
  | cons a as ih =>
    exact (insertStable_perm le a (stableSort le as)).trans (ih.cons a)

theorem sublist_insertStable (le : α → α → Bool) (a : α) (l : List α) :
    l.Sublist (insertStable le a l) := by
  induction l with
  | nil => simp [insertStable]
  | cons b bs ih =>
    simp only [insertStable]
    split
    · exact ih.cons₂ b
    · exact List.sublist_cons_self a (b :: bs)

theorem insertStable_sorted (le : α → α → Bool)
    (htr : ∀ x y z, le x y = true → le y z = true → le x z = true)
    (hto : ∀ x y, le x y = true ∨ le y x = true)
    (a : α) (l : List α) (hs : l.Pairwise (fun x y => le x y = true)) :
    (insertStable le a l).Pairwise (fun x y => le x y = true) := by
  induction l with
  | nil => simp [insertStable]
  | cons b bs ih =>
    rcases List.pairwise_cons.mp hs with ⟨hbAll, hbs⟩
    simp only [insertStable]
    split
    · next hcond =>
      rcases Bool.and_eq_true_iff.mp hcond with ⟨hba, _⟩
      refine List.pairwise_cons.mpr ⟨?_, ih hbs⟩
      intro x hx
      have hx' : x = a ∨ x ∈ bs :=
        by simpa using (insertStable_perm le a bs).mem_iff.mp hx
      rcases hx' with rfl | hx'
      · exact hba
      · exact hbAll x hx'
    · next hcond =>
      have hab : le a b = true := by
        by_cases h1 : le a b = true
        · exact h1
        · exfalso
          have h2 : le a b = false := by simpa using h1
          rcases hto a b with h | h
          · simp [h] at h2
          · exact hcond (by simp [h, h2])
      refine List.pairwise_cons.mpr ⟨?_, hs⟩
      intro x hx
      rcases List.mem_cons.mp hx with rfl | hx'
      · exact hab
      · exact htr a b x hab (hbAll x hx')

theorem stableSort_sorted (le : α → α → Bool)
    (htr : ∀ x y z, le x y = true → le y z = true → le x z = true)
    (hto : ∀ x y, le x y = true ∨ le y x = true) (l : List α) :
    (stableSort le l).Pairwise (fun x y => le x y = true) := by
  induction l with
  | nil => simp [stableSort]
  | cons a as ih => exact insertStable_sorted le htr hto a (stableSort le as) ih

theorem insertStable_before (le : α → α → Bool) {a b : α} {l : List α}
    (hb : b ∈ l) (hcond : (le b a && !le a b) = false) :
    ([a, b]).Sublist (insertStable le a l) := by
  induction l with
  | nil => cases hb
  | cons c cs ih =>
    simp only [insertStable]
    split
    · next hc =>
      rcases List.mem_cons.mp hb with rfl | hb'
      · rw [hc] at hcond; cases hcond
      · exact (ih hb').cons c
    · refine List.Sublist.cons₂ a ?_
      exact List.singleton_sublist.mpr hb

theorem stableSort_stable_pair (le : α → α → Bool) {a b : α} {l : List α}
    (hab : le a b = true) (hba : le b a = true) (h : ([a, b]).Sublist l) :
    ([a, b]).Sublist (stableSort le l) := by
  induction l with
  | nil => cases h
  | cons x xs ih =>
    cases h with
    | cons _ h' =>
      exact (ih h').trans (sublist_insertStable le x (stableSort le xs))
    | cons₂ _ h' =>
      have hbmem : b ∈ stableSort le xs :=
        (stableSort_perm le xs).mem_iff.mpr (List.singleton_sublist.mp h')
      refine insertStable_before le hbmem ?_
      simp [hba, hab]

/-! ### Claim C3 -/

/-- C3: for every parent directory, the scan processes exactly those
immediate children that are directories and pass the repository check
(permutation of the filtered enumeration), in ascending order of the
lowercased final path segment, with ties between identical lowercased names
preserving filesystem enumeration order. -/
theorem scan_order_spec (env : Env) (p : Parent) :
    (scanRepos env p).Perm (p.entries.filter (fun e => e.isDir && isRepoE env e)) ∧
    (scanRepos env p).Pairwise
      (fun a b => pyStrLe (pyLower a.name) (pyLower b.name) = true) ∧
    ∀ a b : Entry, pyLower a.name = pyLower b.name →
      ([a, b]).Sublist p.entries →
      (a.isDir && isRepoE env a) = true → (b.isDir && isRepoE env b) = true →
      ([a, b]).Sublist (scanRepos env p) := by
  refine ⟨?_, ?_, ?_⟩
  · exact (stableSort_perm entryLe p.entries).filter _
  · have hs :=
      stableSort_sorted entryLe (fun _ _ _ h1 h2 => entryLe_trans h1 h2)
        entryLe_total p.entries
    have hsub : (scanRepos env p).Sublist (sortedEntries p) :=
      List.filter_sublist _
    exact List.Pairwise.sublist hsub hs
  · intro a b hkey hsub ha hb
    have hab : entryLe a b = true := by
      simp only [entryLe, hkey]
      exact pyStrLe_refl _
    have hba : entryLe b a = true := by
      simp only [entryLe, hkey]
      exact pyStrLe_refl _
    have h1 : ([a, b]).Sublist (sortedEntries p) :=
      stableSort_stable_pair entryLe hab hba hsub
    have h2 := h1.filter (fun e => e.isDir && isRepoE env e)
    simpa [List.filter_cons, ha, hb, scanRepos] using h2

/-- Witness for C3 at a concrete parent: the children `A` and `a` have the
same lowercased name, appear in that enumeration order, and both survive in
that order in the scan result. -/
theorem scan_order_spec_witness :
    ([⟨"A".toList, true⟩, ⟨"a".toList, true⟩] : List Entry).Sublist
      (scanRepos envAllRepo parentTie) :=
  (scan_order_spec envAllRepo parentTie).2.2
    ⟨"A".toList, true⟩ ⟨"a".toList, true⟩
    (by decide) (by decide) (by decide) (by decide)

/-! ### Trace lemmas: which queries each run issues -/

theorem upstreamBlock_trace_mem {env : Env} {e : Entry} {x : Entry × GitQuery}
    (hx : x ∈ (upstreamBlock env e).2) : x.1 = e := by
  unfold upstreamBlock at hx
  split at hx
  · simp only [List.mem_singleton] at hx
    subst hx
    rfl
  · simp only [List.mem_singleton] at hx
    subst hx
    rfl
  · split at hx <;>
      (simp only [List.mem_cons, List.mem_singleton, List.not_mem_nil,
        or_false] at hx
       rcases hx with rfl | rfl <;> rfl)

theorem changesStep_trace {env : Env} {e : Entry} {x : Entry × GitQuery}
    (hx : x ∈ (changesStep env e).trace) :
    x.1 = e ∧ (x.2 = GitQuery.isInsideWorkTree ∨ isRepoE env e = true) := by
  unfold changesStep at hx
  split at hx
  · simp at hx
  · split at hx
    · simp only [List.mem_singleton] at hx
      subst hx
      exact ⟨rfl, Or.inl rfl⟩
    · next h2 =>
      have hr : isRepoE env e = true := by simpa using h2
      simp only [List.cons_append, List.nil_append, List.mem_cons] at hx
      rcases hx with rfl | rfl | hx
      · exact ⟨rfl, Or.inl rfl⟩
      · exact ⟨rfl, Or.inr hr⟩
      · exact ⟨upstreamBlock_trace_mem hx, Or.inr hr⟩

theorem ignoredStep_trace {env : Env} {e : Entry} {x : Entry × GitQuery}
    (hx : x ∈ (ignoredStep env e).trace) :
    x.1 = e ∧ (x.2 = GitQuery.isInsideWorkTree ∨ isRepoE env e = true) := by
  unfold ignoredStep at hx
  split at hx
  · simp at hx
  · split at hx
    · simp only [List.mem_singleton] at hx
      subst hx
      exact ⟨rfl, Or.inl rfl⟩
    · next h2 =>
      have hr : isRepoE env e = true := by simpa using h2
      simp only [List.mem_cons, List.mem_singleton, List.not_mem_nil,
        or_false] at hx
      rcases hx with rfl | rfl
      · exact ⟨rfl, Or.inl rfl⟩
      · exact ⟨rfl, Or.inr hr⟩

theorem stepMain_trace_mem {env : Env} {p : Parent} {x : Entry × GitQuery}
    (step : Env → Entry → Emit)
    (hstep : ∀ {e y}, y ∈ (step env e).trace →
      y.1 = e ∧ (y.2 = GitQuery.isInsideWorkTree ∨ isRepoE env e = true))
    (hx : x ∈ ((((sortedEntries p).map (step env)).map Emit.trace).flatten)) :
    x.2 = GitQuery.isInsideWorkTree ∨ isRepoE env x.1 = true := by
  rw [List.mem_flatten] at hx
  obtain ⟨tr, htr, hxtr⟩ := hx
  rw [List.mem_map] at htr
  obtain ⟨em, hem, rfl⟩ := htr
  rw [List.mem_map] at hem
  obtain ⟨e, _, rfl⟩ := hem
  obtain ⟨h1, h2⟩ := hstep hxtr
  rw [h1]
  exact h2

theorem changesMain_trace_mem {env : Env} {p : Parent} {x : Entry × GitQuery}
    (hx : x ∈ (changesMain env p).trace) :
    x.2 = GitQuery.isInsideWorkTree ∨ isRepoE env x.1 = true := by
  unfold changesMain at hx
  split at hx
  · simp at hx
  · exact stepMain_trace_mem changesStep (fun hy => changesStep_trace hy) hx

theorem ignoredMain_trace_mem {env : Env} {p : Parent} {x : Entry × GitQuery}
    (hx : x ∈ (ignoredMain env p).trace) :
    x.2 = GitQuery.isInsideWorkTree ∨ isRepoE env x.1 = true := by
  unfold ignoredMain at hx
  split at hx
  · simp at hx
  · exact stepMain_trace_mem ignoredStep (fun hy => ignoredStep_trace hy) hx

theorem siblingMain_trace_mem {env : Env} {p : Parent} {x : Entry × GitQuery}
    (hx : x ∈ (siblingMain env p).trace) :
    x.2 = GitQuery.isInsideWorkTree ∨ isRepoE env x.1 = true := by
  unfold siblingMain at hx
  split at hx
  · simp at hx
  · simp only [siblingBody, List.mem_append] at hx
    rcases hx with hx | hx
    · rw [List.mem_filterMap] at hx
      obtain ⟨e, _, he⟩ := hx
      by_cases hd : e.isDir = true
      · rw [if_pos hd] at he
        cases he
        exact Or.inl rfl
      · rw [if_neg hd] at he
        cases he
    · rw [List.mem_flatten] at hx
      obtain ⟨tr, htr, hxtr⟩ := hx
      rw [List.mem_map] at htr
      obtain ⟨em, hem, rfl⟩ := htr
      rw [List.mem_map] at hem
      obtain ⟨e, he, rfl⟩ := hem
      simp only [scanRepos] at he
      have hpred : (e.isDir && isRepoE env e) = true := by
        simpa using List.of_mem_filter he
      have hrep : isRepoE env e = true := (Bool.and_eq_true_iff.mp hpred).2
      simp only [siblingStep, List.mem_singleton] at hxtr
      subst hxtr
      exact Or.inr hrep

/-! ### Claim C4 -/

/-- C4: no data query (status, upstream, ahead/behind, ignored files,
remotes) is ever issued against a directory unless the
is-inside-work-tree check for that directory returned exit code 0 with
trimmed stdout equal to the literal token `true`; this holds for the traces
of all three programs. -/
theorem repo_check_gates_queries (env : Env) (p : Parent) (e : Entry)
    (q : GitQuery)
    (hmem : (e, q) ∈ (changesMain env p).trace ∨
      (e, q) ∈ (ignoredMain env p).trace ∨
      (e, q) ∈ (siblingMain env p).trace)
    (hne : q ≠ GitQuery.isInsideWorkTree) :
    (env e .isInsideWorkTree).exitCode = 0 ∧
      pyStrip (env e .isInsideWorkTree).stdout = "true".toList := by
  have hrep : isRepoE env e = true := by
    rcases hmem with h | h | h
    · rcases changesMain_trace_mem h with h' | h'
      · exact absurd h' hne
      · exact h'
    · rcases ignoredMain_trace_mem h with h' | h'
      · exact absurd h' hne
      · exact h'
    · rcases siblingMain_trace_mem h with h' | h'
      · exact absurd h' hne
      · exact h'
  have := hrep
  simp only [isRepoE, is_git_repo, Bool.and_eq_true_iff, decide_eq_true_eq] at this
  exact this

/-- Witness for C4: in a concrete run the porcelain-status query appears in
the trace for `repo1`, so its work-tree check passed with exit 0 and
trimmed stdout `true`. -/
theorem repo_check_gates_queries_witness :
    (envAllRepo entryR .isInsideWorkTree).exitCode = 0 ∧
      pyStrip (envAllRepo entryR .isInsideWorkTree).stdout = "true".toList :=
  repo_check_gates_queries envAllRepo parentOne entryR .statusPorcelain
    (Or.inl (by decide)) (by decide)

/-! ### Claim C9 -/

/-- C9: when the resolved `--parent` path is not a directory, each program
writes the diagnostic to the error stream, prints nothing to stdout and
exits with status 1; when it is a directory, the exit status is 0 no matter
how the per-repo queries behave. -/
theorem parent_dir_exit (env : Env) (p : Parent) :
    (p.isDir = false →
      siblingMain env p = ⟨1, [], [parentDiag p.path], []⟩ ∧
      ignoredMain env p = ⟨1, [], [parentDiag p.path], []⟩ ∧
      changesMain env p = ⟨1, [], [parentDiag p.path], []⟩) ∧
    (p.isDir = true →
      (siblingMain env p).exitCode = 0 ∧ (ignoredMain env p).exitCode = 0 ∧
      (changesMain env p).exitCode = 0) := by
  constructor
  · intro h
    refine ⟨?_, ?_, ?_⟩ <;> simp [siblingMain, ignoredMain, changesMain, h]
  · intro h
    refine ⟨?_, ?_, ?_⟩ <;> simp [siblingMain, ignoredMain, changesMain, h]

/-- Witness for C9: a nonexistent parent gives exit 1 with empty stdout,
and a real parent with failing per-repo queries still exits 0. -/
theorem parent_dir_exit_witness :
    (siblingMain envQueryFail parentBad).exitCode = 1 ∧
      (siblingMain envQueryFail parentBad).out = [] ∧
      (siblingMain envQueryFail parentBad).err = [parentDiag parentBad.path] ∧
      (siblingMain envQueryFail parentOne).exitCode = 0 := by
  have h1 := (parent_dir_exit envQueryFail parentBad).1 rfl
  have h2 := (parent_dir_exit envQueryFail parentOne).2 rfl
  rw [h1.1]
  exact ⟨rfl, rfl, rfl, h2.1⟩

/-! ### Claim C10 -/

/-- C10: when the upstream-resolution query exits 0 but its stdout trims to
the empty string, the upstream is treated as absent and the no-upstream
line is printed, exactly as when the query exits nonzero. -/
theorem empty_upstream_is_absent (env : Env) (e : Entry)
    (h0 : (env e .upstreamRef).exitCode = 0)
    (h1 : pyStrip (env e .upstreamRef).stdout = []) :
    get_upstream (env e .upstreamRef) = none ∧
      (upstreamBlock env e).1 = noUpstreamLine ∧
      ∀ res : CmdResult, res.exitCode ≠ 0 → get_upstream res = none := by
  have hg : get_upstream (env e .upstreamRef) = none := by
    simp [get_upstream, h0, h1]
  refine ⟨hg, ?_, ?_⟩
  · simp [upstreamBlock, hg]
  · intro res h
    simp [get_upstream, h]

/-- Witness for C10: an upstream query returning exit 0 with whitespace-only
stdout yields an absent upstream and the no-upstream line. -/
theorem empty_upstream_is_absent_witness :
    get_upstream (envEmptyUpstream entryR .upstreamRef) = none ∧
      (upstreamBlock envEmptyUpstream entryR).1 = noUpstreamLine :=
  let h := empty_upstream_is_absent envEmptyUpstream entryR (by decide) (by decide)
  ⟨h.1, h.2.1⟩

/-! ### Whitespace-splitting is unchanged by stripping (for claim C5) -/

theorem splitWsAux_all_ws {ws : PyStr} (hws : ∀ c ∈ ws, isPyWs c = true)
    (acc : PyStr) :
    splitWsAux ws acc = if acc = [] then [] else [acc.reverse] := by
  induction ws generalizing acc with
  | nil => rfl
  | cons c rest ih =>
    have hc : isPyWs c = true := hws c (List.mem_cons_self c rest)
    have hrest : ∀ c ∈ rest, isPyWs c = true :=
      fun x hx => hws x (List.mem_cons_of_mem c hx)
    simp only [splitWsAux, hc, if_true]
    by_cases hacc : acc = []
    · simp [hacc, ih hrest]
    · simp [hacc, ih hrest]

theorem splitWsAux_append_ws {ws : PyStr} (hws : ∀ c ∈ ws, isPyWs c = true)
    (s acc : PyStr) :
    splitWsAux (s ++ ws) acc = splitWsAux s acc := by
  induction s generalizing acc with
  | nil =>
    simp only [List.nil_append, splitWsAux]
    exact splitWsAux_all_ws hws acc
  | cons c rest ih =>
    simp only [List.cons_append, splitWsAux]
    by_cases hc : isPyWs c = true
    · simp only [hc, if_true]
      by_cases hacc : acc = [] <;> simp [hacc, ih]
    · simp only [Bool.not_eq_true] at hc
      simp [hc, ih]

theorem splitWsAux_lstrip (s : PyStr) :
    splitWsAux (pyLstripWs s) [] = splitWsAux s [] := by
  induction s with
  | nil => rfl
  | cons c rest ih =>
    by_cases hc : isPyWs c = true
    · simp only [pyLstripWs, List.dropWhile_cons, hc, if_true]
      simp only [pyLstripWs] at ih
      rw [ih]
      simp [splitWsAux, hc]
    · simp only [Bool.not_eq_true] at hc
      simp [pyLstripWs, List.dropWhile_cons, hc]

theorem pySplitWs_strip (s : PyStr) :
    pySplitWs (pyStrip s) = pySplitWs s := by
  unfold pySplitWs pyStrip
  have hdecomp :
      pyRstripWs (pyLstripWs s) ++
        ((pyLstripWs s).reverse.takeWhile isPyWs).reverse = pyLstripWs s := by
    unfold pyRstripWs
    rw [← List.reverse_append, List.takeWhile_append_dropWhile,
      List.reverse_reverse]
  have hws : ∀ c ∈ ((pyLstripWs s).reverse.takeWhile isPyWs).reverse,
      isPyWs c = true := by
    intro c hc
    rw [List.mem_reverse] at hc
    exact List.mem_takeWhile_imp hc
  calc splitWsAux (pyRstripWs (pyLstripWs s)) []
      = splitWsAux (pyRstripWs (pyLstripWs s) ++
          ((pyLstripWs s).reverse.takeWhile isPyWs).reverse) [] :=
        (splitWsAux_append_ws hws _ _).symm
    _ = splitWsAux (pyLstripWs s) [] := by rw [hdecomp]
    _ = splitWsAux s [] := splitWsAux_lstrip s

/-! ### Claim C5 -/

/-- C5: the divergence query result is `none` (reported unavailable, no
exception — the embedding is total) exactly when the query exits nonzero,
or its whitespace-split stdout is not exactly two tokens, or either token
fails to parse as an integer; otherwise the two parsed integers are
returned as `(ahead, behind)`. -/
theorem ahead_behind_spec (res : CmdResult) :
    (res.exitCode ≠ 0 → ahead_behind res = none) ∧
    ((pySplitWs res.stdout).length ≠ 2 → ahead_behind res = none) ∧
    (∀ p0 p1, pySplitWs res.stdout = [p0, p1] →
      pyInt p0 = none ∨ pyInt p1 = none → ahead_behind res = none) ∧
    (∀ p0 p1 a b, res.exitCode = 0 → pySplitWs res.stdout = [p0, p1] →
      pyInt p0 = some a → pyInt p1 = some b →
      ahead_behind res = some (a, b)) := by
  have hsplit : pySplitWs (pyStrip res.stdout) = pySplitWs res.stdout :=
    pySplitWs_strip res.stdout
  refine ⟨?_, ?_, ?_, ?_⟩
  · intro h
    simp [ahead_behind, h]
  · intro h
    unfold ahead_behind
    split
    · rfl
    · rw [hsplit]
      split
      · next heq => rw [heq] at h; simp at h
      · rfl
  · intro p0 p1 heq hbad
    unfold ahead_behind
    split
    · rfl
    · rw [hsplit, heq]
      rcases hbad with hb | hb <;> rcases h0 : pyInt p0 with _ | a <;>
        rcases h1 : pyInt p1 with _ | b <;> simp_all
  · intro p0 p1 a b hexit heq h0 h1
    unfold ahead_behind
    split
    · next h => exact absurd hexit h
    · rw [hsplit, heq]
      simp [h0, h1]

/-- Witness for C5 at concrete query results: failure, wrong token count,
unparseable token, and a successful `3 0`. -/
theorem ahead_behind_spec_witness :
    ahead_behind ⟨1, "3 0".toList, []⟩ = none ∧
      ahead_behind ⟨0, "3 0 1".toList, []⟩ = none ∧
      ahead_behind ⟨0, "3 x".toList, []⟩ = none ∧
      ahead_behind ⟨0, " 3 0\n".toList, []⟩ = some (3, 0) :=
  ⟨(ahead_behind_spec ⟨1, "3 0".toList, []⟩).1 (by decide),
   (ahead_behind_spec ⟨0, "3 0 1".toList, []⟩).2.1 (by decide),
   (ahead_behind_spec ⟨0, "3 x".toList, []⟩).2.2.1 "3".toList "x".toList
     (by decide) (Or.inr (by decide)),
   (ahead_behind_spec ⟨0, " 3 0\n".toList, []⟩).2.2.2 "3".toList "0".toList
     3 0 (by decide) (by decide) (by decide) (by decide)⟩

/-! ### Claim C1 -/

theorem get_upstream_eq (res : CmdResult) :
    get_upstream res = if res.exitCode ≠ 0 then none
      else if pyStrip res.stdout ≠ [] then some (pyStrip res.stdout)
      else none := rfl

theorem get_upstream_ne_some_nil (res : CmdResult) :
    get_upstream res ≠ some [] := by
  rw [get_upstream_eq]
  split
  · simp
  · split
    · next h =>
      intro hc
      exact h (Option.some.inj hc)
    · simp

/-- C1 counterexample: with an upstream of `origin/main` and a failing
divergence query, the line printed at stdout position 1 is the source's
Japanese text, not `  upstream: origin/main (unavailable)` as the claim
states. -/
theorem upstream_line_literal_counterexample :
    (changesStep envDivergeFail entryR).out[1]? =
      some (upstreamUnavailableLine "origin/main".toList) ∧
    upstreamUnavailableLine "origin/main".toList ≠
      "  upstream: origin/main (unavailable)".toList ∧
    noUpstreamLine ≠ "  upstream: (none)".toList := by decide

/-- C1 amended: the upstream line printed for each processed repository is
exactly `  upstream: <ref> (ahead <n>, behind <n>)` when the divergence
counts parse, `  upstream: <ref> (差分を取得できませんでした)` when an
upstream exists but the divergence query fails or is unparseable, and
`  upstream: (なし)` when no upstream is available. -/
theorem upstream_line_formats (env : Env) (e : Entry)
    (hd : e.isDir = true) (hr : isRepoE env e = true) :
    (changesStep env e).out[1]? = some (upstreamBlock env e).1 ∧
    ((get_upstream (env e .upstreamRef) = none ∧
        (upstreamBlock env e).1 = noUpstreamLine) ∨
     (∃ up, get_upstream (env e .upstreamRef) = some up ∧
        ahead_behind (env e (.revListCount up)) = none ∧
        (upstreamBlock env e).1 = upstreamUnavailableLine up) ∨
     (∃ up a b, get_upstream (env e .upstreamRef) = some up ∧
        ahead_behind (env e (.revListCount up)) = some (a, b) ∧
        (upstreamBlock env e).1 = upstreamCountsLine up a b)) := by
  constructor
  · simp [changesStep, hd, hr]
  · rcases hget : get_upstream (env e .upstreamRef) with _ | up
    · exact Or.inl ⟨rfl, by simp [upstreamBlock, hget]⟩
    · cases up with
      | nil => exact absurd hget (get_upstream_ne_some_nil _)
      | cons c cs =>
        rcases hab : ahead_behind (env e (.revListCount (c :: cs)))
          with _ | ab
        · refine Or.inr (Or.inl ⟨c :: cs, rfl, hab, ?_⟩)
          simp [upstreamBlock, hget, hab]
        · rcases ab with ⟨a, b⟩
          refine Or.inr (Or.inr ⟨c :: cs, a, b, rfl, hab, ?_⟩)
          simp [upstreamBlock, hget, hab]

/-- Witness for C1 (amended): in a concrete run the upstream line occupies
stdout position 1 of the repo block. -/
theorem upstream_line_formats_witness :
    (changesStep envAllRepo entryR).out[1]? =
      some (upstreamBlock envAllRepo entryR).1 :=
  (upstream_line_formats envAllRepo entryR rfl (by decide)).1

/-! ### Claim C2 -/

theorem ignoredStep_out_head {env : Env} {e : Entry}
    (hd : e.isDir = true) (hr : isRepoE env e = true) :
    e.name ∈ (ignoredStep env e).out := by
  simp [ignoredStep, hd, hr]

theorem siblingStep_out_head (env : Env) (e : Entry) :
    e.name ∈ (siblingStep env e).out := by
  simp [siblingStep]

/-- C2 counterexample: the remote listing exits nonzero, yet nothing is
written to the error stream (the claim requires a diagnostic identifying
the failing repo), while the run still prints the repo's block. -/
theorem remote_failure_silent_counterexample :
    (envQueryFail entryR .remoteV).exitCode ≠ 0 ∧
    (siblingMain envQueryFail parentOne).err = [] ∧
    (siblingMain envQueryFail parentOne).out =
      ["repo1".toList, "  (no remotes)".toList, []] := by decide

/-- C2 amended: a nonzero ignored-files (or status) query writes one
diagnostic identifying the repo to the error stream and yields the empty
list; a nonzero remote listing silently yields the empty map with no
diagnostic; in every case processing continues — the run exits 0 and every
scanned repository still contributes its stdout block. -/
theorem query_failure_handling (res : CmdResult) (path : PyStr)
    (h : res.exitCode ≠ 0) :
    list_ignored path res = ([], [ignoredDiag path res.stderr]) ∧
    list_changes path res = ([], [changesDiag path res.stderr]) ∧
    fetch_remotes res = [] ∧
    ∀ env : Env, ∀ p : Parent, p.isDir = true →
      (ignoredMain env p).exitCode = 0 ∧ (siblingMain env p).exitCode = 0 ∧
      ∀ e ∈ scanRepos env p,
        e.name ∈ (ignoredMain env p).out ∧ e.name ∈ (siblingMain env p).out := by
  refine ⟨by simp [list_ignored, h], by simp [list_changes, h],
    by simp [fetch_remotes, h], ?_⟩
  intro env p hp
  refine ⟨by simp [ignoredMain, hp], by simp [siblingMain, hp], ?_⟩
  intro e he
  have hpred : (e.isDir && isRepoE env e) = true := by
    simp only [scanRepos] at he
    simpa using List.of_mem_filter he
  have hd : e.isDir = true := (Bool.and_eq_true_iff.mp hpred).1
  have hr : isRepoE env e = true := (Bool.and_eq_true_iff.mp hpred).2
  have hmem : e ∈ sortedEntries p := by
    simp only [scanRepos] at he
    exact List.mem_of_mem_filter he
  constructor
  · simp only [ignoredMain, hp, Bool.true_eq_false, if_neg, ite_false]
    rw [List.mem_flatten]
    refine ⟨(ignoredStep env e).out, ?_, ignoredStep_out_head hd hr⟩
    rw [List.mem_map]
    exact ⟨ignoredStep env e, List.mem_map.mpr ⟨e, hmem, rfl⟩, rfl⟩
  · simp only [siblingMain, hp, Bool.true_eq_false, if_neg, ite_false,
      siblingBody]
    rw [List.mem_flatten]
    refine ⟨(siblingStep env e).out, ?_, siblingStep_out_head env e⟩
    rw [List.mem_map]
    exact ⟨siblingStep env e, List.mem_map.mpr ⟨e, he, rfl⟩, rfl⟩

/-- Witness for C2 (amended) at a concrete failing query result. -/
theorem query_failure_handling_witness :
    list_ignored "repo1".toList ⟨2, [], "boom\n".toList⟩ =
      ([], [ignoredDiag "repo1".toList "boom\n".toList]) ∧
    fetch_remotes ⟨2, [], "boom\n".toList⟩ = [] :=
  let h := query_failure_handling ⟨2, [], "boom\n".toList⟩ "repo1".toList
    (by decide)
  ⟨h.1, h.2.2.1⟩

/-! ### Claim C6 -/

theorem lastSlashSeg_lstrip (s : PyStr) :
    lastSlashSeg (pyLstripSet ['/'] s) = lastSlashSeg s := by
  induction s with
  | nil => rfl
  | cons c rest ih =>
    by_cases hc : c = '/'
    · subst hc
      have h1 : pyLstripSet ['/'] ('/' :: rest) = pyLstripSet ['/'] rest := by
        simp [pyLstripSet, List.dropWhile_cons]
      rw [h1, ih]
      simp [lastSlashSeg]
    · have h1 : pyLstripSet ['/'] (c :: rest) = c :: rest := by
        simp [pyLstripSet, List.dropWhile_cons, hc]
      rw [h1]

/-- C6: the inferred expected directory name strips trailing slashes, then
on a `://` URL takes the last `/`-delimited segment of the parsed URL's
path, otherwise the substring after the first colon when present (else the
whole trimmed string) and then its last `/`-delimited segment, and finally
strips one trailing `.git`; in particular both example URLs infer
`widget`. -/
theorem repo_name_inference_spec :
    (∀ url : PyStr, repo_name_from_url url = repoNameSpec url) ∧
    repo_name_from_url "https://example.com/org/widget.git".toList =
      "widget".toList ∧
    repo_name_from_url "git@example.com:org/widget.git".toList =
      "widget".toList := by
  refine ⟨?_, by decide, by decide⟩
  intro url
  simp only [repo_name_from_url, repoNameSpec]
  by_cases h1 : hasSub "://".toList (pyRstripSet ['/'] url) = true
  · simp only [h1, if_true]
    rw [lastSlashSeg_lstrip]
  · rw [Bool.not_eq_true] at h1
    simp only [h1, Bool.false_eq_true, if_false]
    by_cases h2 : hasChar ':' (pyRstripSet ['/'] url) = true
    · simp only [h2, if_true]
      rcases hdrop : (pyRstripSet ['/'] url).dropWhile (fun c => c ≠ ':')
        with _ | ⟨c, rest⟩ <;> simp [hdrop, lastSlashSeg]
    · rw [Bool.not_eq_true] at h2
      simp only [h2, Bool.false_eq_true, if_false]

/-! ### Association-list and dedup lemmas (for claims C7 and C8) -/

theorem lookupStr_eq_none_iff (k : PyStr) (l : List (PyStr × PyStr)) :
    lookupStr k l = none ↔ k ∉ l.map Prod.fst := by
  induction l with
  | nil => simp [lookupStr]
  | cons nu rest ih =>
    rcases nu with ⟨n, u⟩
    by_cases h : n = k
    · subst h
      simp [lookupStr]
    · simp [lookupStr, h, ih, Ne.symm h]

theorem lookupStr_mem {k u : PyStr} {l : List (PyStr × PyStr)}
    (h : lookupStr k l = some u) : (k, u) ∈ l := by
  induction l with
  | nil => cases h
  | cons nu rest ih =>
    rcases nu with ⟨n, v⟩
    by_cases hn : n = k
    · subst hn
      simp only [lookupStr, if_pos rfl] at h
      cases h
      exact List.mem_cons_self _ _
    · simp only [lookupStr, if_neg hn] at h
      exact List.mem_cons_of_mem _ (ih h)

theorem lookupStr_of_mem_nodup {k u : PyStr} {l : List (PyStr × PyStr)}
    (hmem : (k, u) ∈ l) (hnodup : (l.map Prod.fst).Nodup) :
    lookupStr k l = some u := by
  induction l with
  | nil => cases hmem
  | cons nu rest ih =>
    rcases nu with ⟨n, v⟩
    rcases List.mem_cons.mp hmem with heq | hmem'
    · cases heq
      simp [lookupStr]
    · have hn : n ≠ k := by
        intro hnk
        subst hnk
        have : n ∈ rest.map Prod.fst :=
          List.mem_map.mpr ⟨(n, u), hmem', rfl⟩
        exact (List.nodup_cons.mp hnodup).1 this
      simp only [lookupStr, if_neg hn]
      exact ih hmem' (List.nodup_cons.mp hnodup).2

theorem lookupStr_isSome_of_mem_keys {k : PyStr} {l : List (PyStr × PyStr)}
    (h : k ∈ l.map Prod.fst) : ∃ u, lookupStr k l = some u := by
  induction l with
  | nil => simp at h
  | cons nu rest ih =>
    rcases nu with ⟨n, v⟩
    by_cases hn : n = k
    · subst hn
      exact ⟨v, by simp [lookupStr]⟩
    · simp only [List.map_cons, List.mem_cons] at h
      rcases h with h | h
      · exact absurd h.symm hn
      · obtain ⟨u, hu⟩ := ih h
        exact ⟨u, by simp [lookupStr, hn, hu]⟩

theorem dedupSeen_congr {seen₁ seen₂ : List PyStr}
    (h : ∀ k, k ∈ seen₁ ↔ k ∈ seen₂) (l : List (PyStr × PyStr)) :
    dedupSeen seen₁ l = dedupSeen seen₂ l := by
  induction l generalizing seen₁ seen₂ with
  | nil => rfl
  | cons nu rest ih =>
    rcases nu with ⟨n, u⟩
    by_cases hn : n ∈ seen₁
    · simp [dedupSeen, hn, (h n).mp hn, ih h]
    · have hn₂ : n ∉ seen₂ := fun hc => hn ((h n).mpr hc)
      have hstep : ∀ k, k ∈ n :: seen₁ ↔ k ∈ n :: seen₂ := by
        intro k
        simp [h k]
      simp [dedupSeen, hn, hn₂, ih hstep]

theorem dedupSeen_subset {seen : List PyStr} {l : List (PyStr × PyStr)}
    {x : PyStr × PyStr} (h : x ∈ dedupSeen seen l) : x ∈ l := by
  induction l generalizing seen with
  | nil => cases h
  | cons nu rest ih =>
    rcases nu with ⟨n, u⟩
    by_cases hn : n ∈ seen
    · simp only [dedupSeen, if_pos hn] at h
      exact List.mem_cons_of_mem _ (ih h)
    · simp only [dedupSeen, if_neg hn, List.mem_cons] at h
      rcases h with rfl | h
      · exact List.mem_cons_self _ _
      · exact List.mem_cons_of_mem _ (ih h)

theorem dedupSeen_keys_nodup (seen : List PyStr) (l : List (PyStr × PyStr)) :
    ((dedupSeen seen l).map Prod.fst).Nodup ∧
      ∀ k ∈ (dedupSeen seen l).map Prod.fst, k ∉ seen := by
  induction l generalizing seen with
  | nil => simp [dedupSeen]
  | cons nu rest ih =>
    rcases nu with ⟨n, u⟩
    by_cases hn : n ∈ seen
    · simpa [dedupSeen, hn] using ih seen
    · obtain ⟨ihn, ihs⟩ := ih (n :: seen)
      refine ⟨?_, ?_⟩
      · simp only [dedupSeen, if_neg hn, List.map_cons, List.nodup_cons]
        refine ⟨fun hc => ?_, ihn⟩
        exact (ihs n hc) (List.mem_cons_self n seen)
      · intro k hk
        simp only [dedupSeen, if_neg hn, List.map_cons, List.mem_cons] at hk
        rcases hk with rfl | hk
        · exact hn
        · intro hc
          exact (ihs k hk) (List.mem_cons_of_mem n hc)

theorem lookupStr_dedupSeen (n : PyStr) (seen : List PyStr)
    (l : List (PyStr × PyStr)) :
    lookupStr n (dedupSeen seen l) =
      if n ∈ seen then none
      else (l.find? (fun c => decide (c.1 = n))).map Prod.snd := by
  induction l generalizing seen with
  | nil => simp [dedupSeen, lookupStr]
  | cons nu rest ih =>
    rcases nu with ⟨m, u⟩
    by_cases hm : m ∈ seen
    · rw [dedupSeen, if_pos hm, ih]
      by_cases hn : n ∈ seen
      · simp [hn]
      · have hmn : ¬ m = n := fun hc => hn (hc ▸ hm)
        simp [hn, List.find?_cons, hmn]
    · rw [dedupSeen, if_neg hm]
      by_cases hmn : m = n
      · subst hmn
        simp [lookupStr, hm, List.find?_cons]
      · rw [lookupStr, if_neg hmn, ih]
        by_cases hn : n ∈ seen
        · simp [hn, hmn, List.mem_cons]
        · simp [hn, hmn, List.find?_cons, List.mem_cons, Ne.symm hmn]

theorem fetchFoldAux_spec (lines : List PyStr)
    (acc : List (PyStr × PyStr)) :
    fetchFoldAux acc lines =
      acc ++ dedupSeen (acc.map Prod.fst) (fetchCands lines) := by
  induction lines generalizing acc with
  | nil => simp [fetchFoldAux, fetchCands, dedupSeen]
  | cons line rest ih =>
    rcases hsp : pySplitWs line with _ | ⟨p0, tl⟩
    · simp [fetchFoldAux, fetchCands, hsp, ih]
    · rcases tl with _ | ⟨p1, tl2⟩
      · simp [fetchFoldAux, fetchCands, hsp, ih]
      · rcases tl2 with _ | ⟨p2, tl3⟩
        · simp [fetchFoldAux, fetchCands, hsp, ih]
        · by_cases hdir : pyStripSet "()".toList p2 = "fetch".toList
          · by_cases hlk : lookupStr p0 acc = none
            · have hkeys : p0 ∉ acc.map Prod.fst :=
                (lookupStr_eq_none_iff p0 acc).mp hlk
              rw [fetchFoldAux, hsp]
              simp only [hdir, hlk, and_self, if_true, true_and, if_pos]
              rw [ih]
              simp only [fetchCands, hsp, hdir, if_true]
              rw [dedupSeen, if_neg hkeys]
              have hcongr : ∀ k, k ∈ (acc ++ [(p0, p1)]).map Prod.fst ↔
                  k ∈ p0 :: acc.map Prod.fst := by
                intro k
                simp [List.mem_append, List.mem_cons, or_comm]
              rw [dedupSeen_congr hcongr]
              simp
            · have hkeys : p0 ∈ acc.map Prod.fst := by
                rcases hsome : lookupStr p0 acc with _ | u
                · exact absurd hsome hlk
                · exact List.mem_map.mpr ⟨(p0, u), lookupStr_mem hsome, rfl⟩
              rw [fetchFoldAux, hsp]
              have hcond : ¬ (pyStripSet "()".toList p2 = "fetch".toList ∧
                  lookupStr p0 acc = none) := fun hc => hlk hc.2
              simp only [hcond, if_neg, if_false]
              rw [ih]
              simp only [fetchCands, hsp, hdir, if_true]
              rw [dedupSeen, if_pos hkeys]
          · rw [fetchFoldAux, hsp]
            have hcond : ¬ (pyStripSet "()".toList p2 = "fetch".toList ∧
                lookupStr p0 acc = none) := fun hc => hdir hc.1
            simp only [hcond, if_neg, if_false]
            rw [ih]
            simp only [fetchCands, hsp, hdir, if_false]

theorem fetch_remotes_eq (res : CmdResult) :
    fetch_remotes res =
      (if res.exitCode ≠ 0 then []
       else dedupSeen [] (fetchCands (pySplitlines res.stdout))) := by
  unfold fetch_remotes
  split
  · rfl
  · rw [fetchFoldAux_spec]
    simp

/-! ### Claim C7 -/

/-- C7: the remote map keeps, for each name, only the URL of the first line
whose third whitespace token strips (of surrounding parentheses) to
`fetch`; push lines and later fetch lines for a seen name are ignored, the
map's insertion order is first-seen-per-name, and looking a name up yields
the URL of the first fetch candidate with that name. -/
theorem fetch_remotes_spec (res : CmdResult) :
    fetch_remotes res =
      (if res.exitCode ≠ 0 then []
       else dedupSeen [] (fetchCands (pySplitlines res.stdout))) ∧
    (res.exitCode = 0 → ∀ n : PyStr,
      lookupStr n (fetch_remotes res) =
        ((fetchCands (pySplitlines res.stdout)).find?
          (fun c => decide (c.1 = n))).map Prod.snd) := by
  refine ⟨fetch_remotes_eq res, ?_⟩
  intro h0 n
  rw [fetch_remotes_eq res, if_neg (by simp [h0]), lookupStr_dedupSeen]
  simp

/-- Witness for C7: on a concrete `remote -v` output the first fetch URL
wins over both the push line and the later duplicate fetch line. -/
theorem fetch_remotes_spec_witness :
    lookupStr "origin".toList (fetch_remotes remoteVOut) =
      some "https://a/b.git".toList := by
  rw [(fetch_remotes_spec remoteVOut).2 rfl "origin".toList]
  decide

/-! ### Nonempty tokens and key uniqueness of the remote map -/

theorem splitWsAux_ne_nil {s acc t : PyStr} (ht : t ∈ splitWsAux s acc) :
    t ≠ [] := by
  induction s generalizing acc with
  | nil =>
    simp only [splitWsAux] at ht
    split at ht
    · cases ht
    · next h =>
      simp only [List.mem_singleton] at ht
      subst ht
      simpa using h
  | cons c rest ih =>
    simp only [splitWsAux] at ht
    split at ht
    · split at ht
      · exact ih ht
      · next h =>
        rcases List.mem_cons.mp ht with rfl | ht'
        · simpa using h
        · exact ih ht'
    · exact ih ht

theorem fetchCands_mem_ne {lines : List PyStr} {n u : PyStr}
    (h : (n, u) ∈ fetchCands lines) : n ≠ [] ∧ u ≠ [] := by
  induction lines with
  | nil => cases h
  | cons line rest ih =>
    rcases hsp : pySplitWs line with _ | ⟨p0, tl⟩
    · simp only [fetchCands, hsp] at h
      exact ih h
    · rcases tl with _ | ⟨p1, tl2⟩
      · simp only [fetchCands, hsp] at h
        exact ih h
      · rcases tl2 with _ | ⟨p2, tl3⟩
        · simp only [fetchCands, hsp] at h
          exact ih h
        · simp only [fetchCands, hsp] at h
          by_cases hdir : pyStripSet "()".toList p2 = "fetch".toList
          · rw [if_pos hdir] at h
            rcases List.mem_cons.mp h with heq | h'
            · have hsp' : splitWsAux line [] = p0 :: p1 :: p2 :: tl3 := hsp
              have hp0 : p0 ≠ [] :=
                splitWsAux_ne_nil (hsp' ▸ List.mem_cons_self p0 _)
              have hp1 : p1 ≠ [] :=
                splitWsAux_ne_nil
                  (hsp' ▸ List.mem_cons_of_mem p0 (List.mem_cons_self p1 _))
              cases heq
              exact ⟨hp0, hp1⟩
            · exact ih h'
          · rw [if_neg hdir] at h
            exact ih h

theorem fetch_remotes_mem_ne {res : CmdResult} {n u : PyStr}
    (h : (n, u) ∈ fetch_remotes res) : n ≠ [] ∧ u ≠ [] := by
  rw [fetch_remotes_eq] at h
  split at h
  · cases h
  · exact fetchCands_mem_ne (dedupSeen_subset h)

theorem fetch_remotes_keys_nodup (res : CmdResult) :
    ((fetch_remotes res).map Prod.fst).Nodup := by
  rw [fetch_remotes_eq]
  split
  · simp
  · exact (dedupSeen_keys_nodup [] _).1

/-! ### The primary remote (for claim C8) -/

theorem stableSort_head_min {keys : List PyStr} {k : PyStr} {t : List PyStr}
    (h : stableSort pyStrLe keys = k :: t) :
    ∀ x ∈ keys, pyStrLe k x = true := by
  intro x hx
  have hx' : x ∈ k :: t := by
    rw [← h]
    exact (stableSort_perm pyStrLe keys).symm.mem_iff.mp hx
  rcases List.mem_cons.mp hx' with rfl | hx''
  · exact pyStrLe_refl x
  · have hsorted := stableSort_sorted pyStrLe
      (fun _ _ _ h1 h2 => pyStrLe_trans h1 h2) pyStrLe_total keys
    rw [h] at hsorted
    exact (List.pairwise_cons.mp hsorted).1 x hx''

theorem primary_remote_eq_some_iff {remotes : List (PyStr × PyStr)}
    (hnodup : (remotes.map Prod.fst).Nodup) (n u : PyStr) :
    primary_remote remotes = some (n, u) ↔ primarySpec remotes n u := by
  constructor
  · intro h
    unfold primary_remote at h
    split at h
    · cases h
    · rcases horig : lookupStr "origin".toList remotes with _ | u0
      · simp only [horig] at h
        rcases hsort : stableSort pyStrLe (remotes.map Prod.fst)
          with _ | ⟨k, t⟩
        · simp only [hsort] at h
          cases h
        · simp only [hsort] at h
          rcases hlk : lookupStr k remotes with _ | u1
          · simp only [hlk] at h
            cases h
          · simp only [hlk] at h
            cases h
            exact Or.inr ⟨horig, lookupStr_mem hlk, stableSort_head_min hsort⟩
      · simp only [horig] at h
        cases h
        exact Or.inl ⟨horig, rfl⟩
  · intro h
    rcases h with ⟨horig, rfl⟩ | ⟨horig, hmem, hmin⟩
    · unfold primary_remote
      have hne : remotes ≠ [] := by
        intro hc
        subst hc
        cases horig
      rw [if_neg hne]
      simp only [horig]
    · unfold primary_remote
      have hne : remotes ≠ [] := List.ne_nil_of_mem hmem
      rw [if_neg hne]
      rcases hsort : stableSort pyStrLe (remotes.map Prod.fst)
        with _ | ⟨k, t⟩
      · exfalso
        have hperm := stableSort_perm pyStrLe (remotes.map Prod.fst)
        rw [hsort] at hperm
        have hkeys : remotes.map Prod.fst = [] := hperm.symm.eq_nil
        exact hne (List.map_eq_nil_iff.mp hkeys)
      · have hnk : n ∈ remotes.map Prod.fst :=
          List.mem_map.mpr ⟨(n, u), hmem, rfl⟩
        have hkmem : k ∈ remotes.map Prod.fst := by
          have hperm := stableSort_perm pyStrLe (remotes.map Prod.fst)
          rw [hsort] at hperm
          exact hperm.mem_iff.mp (List.mem_cons_self k t)
        have hkn : k = n :=
          pyStrLe_antisymm (stableSort_head_min hsort n hnk) (hmin k hkmem)
        subst hkn
        simp only [horig, hsort, lookupStr_of_mem_nodup hmem hnodup]

theorem primary_remote_isSome {remotes : List (PyStr × PyStr)}
    (hne : remotes ≠ []) : ∃ n u, primary_remote remotes = some (n, u) := by
  unfold primary_remote
  rw [if_neg hne]
  rcases horig : lookupStr "origin".toList remotes with _ | u0
  · rcases hsort : stableSort pyStrLe (remotes.map Prod.fst) with _ | ⟨k, t⟩
    · exfalso
      have hperm := stableSort_perm pyStrLe (remotes.map Prod.fst)
      rw [hsort] at hperm
      exact hne (List.map_eq_nil_iff.mp hperm.symm.eq_nil)
    · have hkmem : k ∈ remotes.map Prod.fst := by
        have hperm := stableSort_perm pyStrLe (remotes.map Prod.fst)
        rw [hsort] at hperm
        exact hperm.mem_iff.mp (List.mem_cons_self k t)
      obtain ⟨u1, hu1⟩ := lookupStr_isSome_of_mem_keys hkmem
      refine ⟨k, u1, ?_⟩
      simp only [horig, hsort, hu1]
  · refine ⟨"origin".toList, u0, ?_⟩
    simp only [horig]

theorem mismatchWarn_eq (folder : PyStr) (remotes : List (PyStr × PyStr)) :
    mismatchWarn folder remotes =
      (match primary_remote remotes with
       | none => []
       | some (n, u) =>
         if n ≠ [] ∧ u ≠ [] then
           (if repo_name_from_url u ≠ [] ∧ folder ≠ repo_name_from_url u
            then [warnText folder (repo_name_from_url u) n] else [])
         else []) := rfl

/-! ### Claim C8 -/

/-- C8: a warning naming the folder, the inferred expected name and the
primary remote is written to the error stream exactly when a primary remote
exists (origin if present, else the alphabetically first name) whose
inferred name is nonempty and differs from the folder name; no remotes, an
empty inferred name, or a matching name suppress it. -/
theorem mismatch_warning_spec (env : Env) (e : Entry) :
    ((siblingStep env e).err ≠ [] ↔
      ∃ n u, primarySpec (fetch_remotes (env e .remoteV)) n u ∧
        repo_name_from_url u ≠ [] ∧ e.name ≠ repo_name_from_url u) ∧
    (∀ n u, primarySpec (fetch_remotes (env e .remoteV)) n u →
      (siblingStep env e).err =
        (if repo_name_from_url u ≠ [] ∧ e.name ≠ repo_name_from_url u
         then [warnText e.name (repo_name_from_url u) n] else [])) ∧
    (fetch_remotes (env e .remoteV) = [] → (siblingStep env e).err = []) ∧
    (fetch_remotes (env e .remoteV) ≠ [] →
      ∃ n u, primarySpec (fetch_remotes (env e .remoteV)) n u) := by
  have hnodup := fetch_remotes_keys_nodup (env e .remoteV)
  have herr : (siblingStep env e).err =
      mismatchWarn e.name (fetch_remotes (env e .remoteV)) := rfl
  have hwarn : ∀ n u,
      primary_remote (fetch_remotes (env e .remoteV)) = some (n, u) →
      mismatchWarn e.name (fetch_remotes (env e .remoteV)) =
        (if repo_name_from_url u ≠ [] ∧ e.name ≠ repo_name_from_url u
         then [warnText e.name (repo_name_from_url u) n] else []) := by
    intro n u hpr
    have hmem : (n, u) ∈ fetch_remotes (env e .remoteV) := by
      rcases (primary_remote_eq_some_iff hnodup n u).mp hpr
        with ⟨h1, rfl⟩ | ⟨_, h2, _⟩
      · exact lookupStr_mem h1
      · exact h2
    obtain ⟨hn, hu⟩ := fetch_remotes_mem_ne hmem
    rw [mismatchWarn_eq]
    simp only [hpr]
    rw [if_pos ⟨hn, hu⟩]
  refine ⟨⟨?_, ?_⟩, ?_, ?_, ?_⟩
  · intro hne
    rw [herr] at hne
    rcases hpr : primary_remote (fetch_remotes (env e .remoteV))
      with _ | ⟨n, u⟩
    · exfalso
      apply hne
      rw [mismatchWarn_eq]
      simp [hpr]
    · rw [hwarn n u hpr] at hne
      by_cases hcond : repo_name_from_url u ≠ [] ∧
          e.name ≠ repo_name_from_url u
      · exact ⟨n, u, (primary_remote_eq_some_iff hnodup n u).mp hpr,
          hcond.1, hcond.2⟩
      · rw [if_neg hcond] at hne
        exact absurd rfl hne
  · rintro ⟨n, u, hps, h1, h2⟩
    have hpr := (primary_remote_eq_some_iff hnodup n u).mpr hps
    rw [herr, hwarn n u hpr, if_pos ⟨h1, h2⟩]
    simp
  · intro n u hps
    have hpr := (primary_remote_eq_some_iff hnodup n u).mpr hps
    rw [herr, hwarn n u hpr]
  · intro h0
    rw [herr, mismatchWarn_eq]
    have : primary_remote (fetch_remotes (env e .remoteV)) = none := by
      unfold primary_remote
      rw [if_pos h0]
    simp [this]
  · intro hne0
    obtain ⟨n, u, hpr⟩ := primary_remote_isSome hne0
    exact ⟨n, u, (primary_remote_eq_some_iff hnodup n u).mp hpr⟩

/-- Witness for C8: the folder `repo1` with origin URL
`https://example.com/org/widget.git` gets exactly one warning naming the
folder, the inferred `widget` and the remote `origin`. -/
theorem mismatch_warning_spec_witness :
    (siblingStep envAllRepo entryR).err =
      [warnText "repo1".toList "widget".toList "origin".toList] := by
  have h := (mismatch_warning_spec envAllRepo entryR).2.1 "origin".toList
    "https://example.com/org/widget.git".toList
    (Or.inl ⟨by decide, rfl⟩)
  rw [h]
  decide

end GitTools
